import Mathlib

/-!
A shallow embedding of the feedback normalization and theming pipeline of the
chorus repository (`src/utils/csv.ts` and `src/utils/feedback.ts`), together
with theorems settling the specification claims about it.

JavaScript strings are modelled as Lean `String`s (lists of characters),
JS `Array` as `List`, JS `Map` as an insertion-ordered association list,
JS numbers in the column scorer as exact rationals, and the fallible remote
call in `analyzeFeedback` as an explicit outcome value.
-/

namespace Chorus

/-! ### JS string primitives -/

/-- Whitespace test used by JS `String.prototype.trim` (ASCII fragment). -/
def isWS (c : Char) : Bool := c.isWhitespace

/-- Trim of a character list: drop whitespace from both ends. -/
def trimL (l : List Char) : List Char :=
  ((l.dropWhile isWS).reverse.dropWhile isWS).reverse

/-- JS `s.trim()`. -/
def jsTrim (s : String) : String := ⟨trimL s.data⟩

/-- JS `s.toLowerCase()` (ASCII fragment, per-character lowering). -/
def jsToLower (s : String) : String := ⟨s.data.map Char.toLower⟩

/-- Does the pattern occur at the head of the list? -/
def startsWith : List Char → List Char → Bool
  | [], _ => true
  | _ :: _, [] => false
  | a :: as, b :: bs => a == b && startsWith as bs

/-- Does the pattern occur contiguously anywhere in the list? -/
def hasInfix (p : List Char) : List Char → Bool
  | [] => p.isEmpty
  | b :: bs => startsWith p (b :: bs) || hasInfix p bs

/-- JS `s.includes(sub)`. -/
def jsIncludes (s sub : String) : Bool := hasInfix sub.data s.data

/-- JS `s.split(c)` on a single-character separator, on character lists. -/
def splitOnChar (c : Char) : List Char → List (List Char)
  | [] => [[]]
  | x :: xs =>
    let r := splitOnChar c xs
    if x = c then [] :: r
    else
      match r with
      | [] => [[x]]
      | h :: t => (x :: h) :: t

/-- Drop a single trailing carriage return, if present. -/
def dropCR (l : List Char) : List Char :=
  match l.getLast? with
  | some c => if c = '\r' then l.dropLast else l
  | none => l

/-- JS `text.split(/\r?\n/)`: split on newlines, absorbing a preceding CR. -/
def splitLinesCRLF (s : String) : List String :=
  (splitOnChar '\n' s.data).map (fun l => ⟨dropCR l⟩)

/-! ### `src/utils/csv.ts` -/

/-- `detectDelimiter`: count `,` and `;` over the first 5 raw lines;
semicolon wins only when strictly more frequent. -/
def detectDelimiter (sample : String) : Char :=
  let firstLines := List.intercalate ['\n'] ((splitOnChar '\n' sample.data).take 5)
  let commaCount := firstLines.count ','
  let semicolonCount := firstLines.count ';'
  if commaCount < semicolonCount then ';' else ','

/-- The character scan of `parseCSVLine`: `inQuotes` flag, accumulated
current field, accumulated emitted fields. A quote toggles the flag unless
it is a doubled quote while inside quotes, which emits one literal quote;
the delimiter splits only when not inside quotes; fields are trimmed. -/
def parseCSVLineGo (delim : Char) (inQuotes : Bool) (current : List Char)
    (acc : List String) : List Char → List String
  | [] => acc ++ [jsTrim ⟨current⟩]
  | '"' :: '"' :: rest =>
    if inQuotes then parseCSVLineGo delim true (current ++ ['"']) acc rest
    else parseCSVLineGo delim true current acc ('"' :: rest)
  | '"' :: rest => parseCSVLineGo delim (!inQuotes) current acc rest
  | c :: rest =>
    if c = delim && !inQuotes then
      parseCSVLineGo delim inQuotes [] (acc ++ [jsTrim ⟨current⟩]) rest
    else parseCSVLineGo delim inQuotes (current ++ [c]) acc rest

/-- `parseCSVLine(line, delimiter)`. -/
def parseCSVLine (line : String) (delimiter : Char) : List String :=
  parseCSVLineGo delimiter false [] [] line.data

/-- `ParsedCSV` record. -/
structure ParsedCSV where
  rows : List (List String)
  headers : Option (List String)
  detectedDelimiter : Char
deriving Repr, DecidableEq

/-- The per-cell test of the header heuristic in `parseCSV`:
non-empty after trim, shorter than 50 characters, and not `/^\d+$/`. -/
def looksLikeHeaderCell (cell : String) : Bool :=
  let trimmed := jsTrim cell
  trimmed.length > 0 && trimmed.length < 50 &&
    !(trimmed.length > 0 && trimmed.data.all Char.isDigit)

/-- The non-blank line split of `parseCSV`: `text.split(/\r?\n/)` keeping
lines whose trim is non-empty. -/
def csvLines (text : String) : List String :=
  (splitLinesCRLF text).filter (fun line => (jsTrim line).length > 0)

/-- The pure text-processing core of `parseCSV` (the `File` wrapper only
reads the text): delimiter detection, non-blank line split, per-line
tokenization, and header detection. -/
def parseCSVText (text : String) : Except String ParsedCSV :=
  match csvLines text with
  | [] => Except.error "CSV file is empty"
  | l0 :: rest =>
    let delimiter := detectDelimiter text
    let parsedLines := (l0 :: rest).map (fun line => parseCSVLine line delimiter)
    let firstRow := parseCSVLine l0 delimiter
    let hasHeaders := firstRow.all looksLikeHeaderCell
    if hasHeaders && parsedLines.length > 1 then
      Except.ok ⟨parsedLines.tail, some firstRow, delimiter⟩
    else
      Except.ok ⟨parsedLines, none, delimiter⟩

/-- JS truthiness test `row[colIndex]` of `chooseTextColumn`: the cell
exists and is a non-empty string. -/
def cellNonEmptyAt (colIndex : Nat) (row : List String) : Option String :=
  match row.get? colIndex with
  | some cell => if cell.length > 0 then some cell else none
  | none => none

/-- Column score of `chooseTextColumn`:
`0.7 * averageCellLength + 0.3 * averageAlphabeticCharacterCount` over the
non-empty cells of the first 10 sample rows; 0 if no such cell. -/
def columnScore (sampleRows : List (List String)) (colIndex : Nat) : ℚ :=
  let samples := sampleRows.take 10
  let cells := samples.filterMap (cellNonEmptyAt colIndex)
  if cells.length = 0 then 0
  else
    let totalLength : ℚ := ((cells.map String.length).sum : ℕ)
    let alphaCount : ℚ := ((cells.map (fun c => c.data.countP Char.isAlpha)).sum : ℕ)
    totalLength / (cells.length : ℚ) * (7 / 10) + alphaCount / (cells.length : ℚ) * (3 / 10)

/-- JS `Math.max(...scores)` over a non-empty score list. -/
def listMax : List ℚ → ℚ
  | [] => 0
  | x :: xs => xs.foldl max x

/-- `chooseTextColumn(headers, sampleRows)`: 0 when headers are absent or
empty, else the first index attaining the maximal column score. -/
def chooseTextColumn (headers : Option (List String)) (sampleRows : List (List String)) : Nat :=
  match headers with
  | none => 0
  | some hs =>
    if hs.isEmpty then 0
    else
      let scores := (List.range hs.length).map (columnScore sampleRows)
      let maxScore := listMax scores
      scores.indexOf maxScore

/-- Stats record of `mergeInputs`. -/
structure MergeStats where
  textCount : Nat
  csvCount : Nat
  uniqueCount : Nat
  capped : Bool
  totalBeforeCap : Nat
deriving Repr, DecidableEq

/-- Result record of `mergeInputs`. -/
structure MergeResult where
  merged : List String
  stats : MergeStats
deriving Repr, DecidableEq

/-- The dedup key of `mergeInputs` and `createLabeledCSV`:
`line.toLowerCase().trim()`. -/
def dedupKey (line : String) : String := jsTrim (jsToLower line)

/-- The `uniqueMap` construction of `mergeInputs`: a JS `Map` modelled as an
insertion-ordered association list from key to first line with that key;
lines with an empty key are dropped. -/
def mergeGo : List String → List (String × String) → List (String × String)
  | [], m => m
  | line :: rest, m =>
    let key := dedupKey line
    if key.length > 0 && !(m.any (fun p => p.1 == key)) then
      mergeGo rest (m ++ [(key, line)])
    else mergeGo rest m

/-- `mergeInputs(textLines, csvLines)`. -/
def mergeInputs (textLines csvLines : List String) : MergeResult :=
  let combined := textLines ++ csvLines
  let unique := (mergeGo combined []).map Prod.snd
  let totalBeforeCap := unique.length
  let capped := decide (unique.length > 500)
  let merged := unique.take 500
  { merged := merged,
    stats := { textCount := textLines.length, csvCount := csvLines.length,
               uniqueCount := merged.length, capped := capped,
               totalBeforeCap := totalBeforeCap } }

/-! ### `src/utils/feedback.ts` -/

/-- The `'Low' | 'Med' | 'High'` labels. -/
inductive Rating where
  | Low : Rating
  | Med : Rating
  | High : Rating
deriving Repr, DecidableEq

/-- The `Theme` record; `impact`/`effort` are the optional labels. -/
structure Theme where
  title : String
  summary : String
  quotes : List String
  impact : Option Rating := none
  effort : Option Rating := none
deriving Repr, DecidableEq

def usabilityKeywords : List String :=
  ["confus", "find", "navigat", "unclear", "settings", "preferences"]

def designKeywords : List String :=
  ["dark mode", "color", "beautiful", "design", "look"]

def performanceKeywords : List String :=
  ["slow", "performance", "load", "crash", "forever"]

def featureKeywords : List String :=
  ["export", "download", "data", "csv", "feature"]

def visualKeywords : List String :=
  ["chart", "visualiz", "graph", "basic"]

def supportKeywords : List String :=
  ["support", "team", "help", "friendly", "responded"]

/-- The six keyword buckets of `mockAnalysis`, in source order, each with its
canned title and summary. -/
def buckets : List (String × String × List String) :=
  [("Navigation and Usability Issues",
    "Users struggle to find key features and navigate the interface effectively.",
    usabilityKeywords),
   ("Positive Design Feedback",
    "Users appreciate the visual design and aesthetic choices.",
    designKeywords),
   ("Performance and Stability Concerns",
    "Users report slow loading times and reliability issues.",
    performanceKeywords),
   ("Export Functionality Praised",
    "Users value the ability to export and download their data.",
    featureKeywords),
   ("Visualization Enhancement Requests",
    "Users want more advanced charting and data visualization options.",
    visualKeywords),
   ("Customer Support Excellence",
    "Users report positive experiences with customer support team.",
    supportKeywords)]

/-- `l.toLowerCase().includes(k)` for some keyword `k` of the bucket. -/
def lineMatchesBucket (keywords : List String) (l : String) : Bool :=
  keywords.any (fun k => jsIncludes (jsToLower l) k)

/-- The bucket branch of `mockAnalysis`: each bucket with at least 2
matching lines becomes a theme quoting its first 3 matches. -/
def bucketThemes (lines : List String) : List Theme :=
  buckets.filterMap (fun b =>
    let ms := lines.filter (lineMatchesBucket b.2.2)
    if 2 ≤ ms.length then
      some { title := b.1, summary := b.2.1, quotes := ms.take 3 }
    else none)

/-- The generic-chunk branch of `mockAnalysis`: up to 3 contiguous chunks of
`ceil(n/3)` lines, one `Theme {n}` per non-empty chunk. -/
def chunkThemes (lines : List String) : List Theme :=
  let chunkSize := (lines.length + 2) / 3
  (List.range 3).filterMap (fun i =>
    if i * chunkSize < lines.length then
      let chunk := (lines.drop (i * chunkSize)).take chunkSize
      if 0 < chunk.length then
        some { title := "Theme " ++ Nat.repr (i + 1),
               summary := "User feedback grouped by similarity.",
               quotes := chunk.take 3 }
      else none
    else none)

/-- `mockAnalysis(lines)`: the deterministic fallback classifier. -/
def mockAnalysis (lines : List String) : List Theme :=
  let themes := bucketThemes lines
  let themes := if themes.isEmpty then chunkThemes lines else themes
  themes.take 5

def highImpactWords : List String :=
  ["crash", "broken", "fail", "error", "critical", "urgent", "blocker", "security", "data loss"]

def medImpactWords : List String :=
  ["slow", "confus", "unclear", "difficult", "problem", "issue", "concern"]

def lowImpactWords : List String :=
  ["nice", "would love", "wish", "suggestion", "prefer", "minor"]

def highEffortWords : List String :=
  ["redesign", "rebuild", "architecture", "refactor", "infrastructure", "migration"]

def medEffortWords : List String :=
  ["add", "implement", "create", "develop", "build", "feature"]

def lowEffortWords : List String :=
  ["fix", "update", "change", "adjust", "tweak", "improve", "polish"]

/-- The case-folded `title + " " + summary` scanned by `guessImpactEffort`. -/
def themeText (theme : Theme) : String := jsToLower (theme.title ++ " " ++ theme.summary)

/-- `words.some(w => text.includes(w))`. -/
def anyWordIn (words : List String) (text : String) : Bool :=
  words.any (fun w => jsIncludes text w)

/-- `guessImpactEffort(theme)`: impact and effort labels, each via a
High-then-Low-then-Med first-match keyword scan with default `Med`. -/
def guessImpactEffort (theme : Theme) : Rating × Rating :=
  let text := themeText theme
  let impact :=
    if anyWordIn highImpactWords text then Rating.High
    else if anyWordIn lowImpactWords text then Rating.Low
    else if anyWordIn medImpactWords text then Rating.Med
    else Rating.Med
  let effort :=
    if anyWordIn highEffortWords text then Rating.High
    else if anyWordIn lowEffortWords text then Rating.Low
    else if anyWordIn medEffortWords text then Rating.Med
    else Rating.Med
  (impact, effort)

/-- The line normalization at the top of `analyzeFeedback`:
split on `'\n'`, trim each line, keep the non-empty ones. -/
def analysisLines (text : String) : List String :=
  ((splitOnChar '\n' text.data).map (fun l => jsTrim ⟨l⟩)).filter
    (fun line => 0 < line.length)

/-- One outcome of the remote clustering call: `exn` is a network error or
any exception thrown while reading the response; `response ok content` is an
HTTP response with success flag `ok` whose parsed body carries the text
`content`. -/
inductive RemoteResult where
  | exn : RemoteResult
  | response (ok : Bool) (content : String) : RemoteResult

/-- First index of a character in a list. -/
def firstIdxOf (c : Char) (l : List Char) : Option Nat := l.findIdx? (· == c)

/-- Last index of a character in a list. -/
def lastIdxOf (c : Char) (l : List Char) : Option Nat :=
  (l.reverse.findIdx? (· == c)).map (fun i => l.length - 1 - i)

/-- The `content.match(/\[[\s\S]*\]/)` scan: the substring from the first
`[` through the last `]`, when the latter comes after the former. -/
def findJsonArray (content : String) : Option String :=
  match firstIdxOf '[' content.data, lastIdxOf ']' content.data with
  | some i, some j =>
    if i < j then some ⟨(content.data.drop i).take (j - i + 1)⟩ else none
  | _, _ => none

/-- `analyzeFeedback(text)`, with the remote call's outcome made explicit and
`JSON.parse` abstracted as `jsonParse` (`none` models a parse exception). -/
def analyzeFeedback (jsonParse : String → Option (List Theme)) (text : String)
    (remote : RemoteResult) : Except String (List Theme) :=
  let lines := analysisLines text
  if lines.length < 3 then Except.error "Not enough feedback lines"
  else
    match remote with
    | RemoteResult.exn => Except.ok (mockAnalysis lines)
    | RemoteResult.response ok content =>
      if !ok then Except.ok (mockAnalysis lines)
      else
        match findJsonArray content with
        | none => Except.ok (mockAnalysis lines)
        | some s =>
          match jsonParse s with
          | none => Except.ok (mockAnalysis lines)
          | some themes => Except.ok themes

/-- CSV field escaping of `createLabeledCSV`: wrap in double quotes,
doubling internal double quotes. -/
def escapeCSVField (s : String) : String :=
  ⟨'"' :: (s.data.flatMap (fun c => if c = '"' then ['"', '"'] else [c])) ++ ['"']⟩

/-- Insert one theme's quote keys into the quote→title map, keeping the
first occurrence of each key. -/
def addQuoteKeys (title : String) : List String → List (String × String) → List (String × String)
  | [], m => m
  | q :: rest, m =>
    let key := dedupKey q
    if m.any (fun p => p.1 == key) then addQuoteKeys title rest m
    else addQuoteKeys title rest (m ++ [(key, title)])

/-- The `themeMap` construction of `createLabeledCSV`. -/
def buildThemeMap : List Theme → List (String × String) → List (String × String)
  | [], m => m
  | th :: rest, m => buildThemeMap rest (addQuoteKeys th.title th.quotes m)

/-- JS `Map.get` on the association-list model. -/
def lookupKey (m : List (String × String)) (key : String) : Option String :=
  (m.find? (fun p => p.1 == key)).map Prod.snd

/-- The output rows of `createLabeledCSV`, header row first. -/
def createLabeledCSVLines (feedbackLines : List String) (themes : List Theme) : List String :=
  let themeMap := buildThemeMap themes []
  "original_text,theme_title" ::
    feedbackLines.filterMap (fun line =>
      (lookupKey themeMap (dedupKey line)).map (fun title =>
        escapeCSVField line ++ "," ++ escapeCSVField title))

/-- `createLabeledCSV(feedbackLines, themes)`. -/
def createLabeledCSV (feedbackLines : List String) (themes : List Theme) : String :=
  String.intercalate "\n" (createLabeledCSVLines feedbackLines themes)

/-! ### Specification-side definitions, following the claims' wording -/

/-- Spec wording of the generic-chunk branch: partition the lines into 3
contiguous chunks of `ceil(n/3)` lines and emit one generic theme per
non-empty chunk. -/
def chunkThemesSpec (lines : List String) : List Theme :=
  let chunkSize := (lines.length + 2) / 3
  (List.range 3).filterMap (fun i =>
    let chunk := (lines.drop (i * chunkSize)).take chunkSize
    if chunk = [] then none
    else some { title := "Theme " ++ Nat.repr (i + 1),
                summary := "User feedback grouped by similarity.",
                quotes := chunk.take 3 })

/-- Spec wording of the fallback classifier: a bucket becomes a theme iff at
least 2 lines match it, quoting the first 3 matches in input order; if no
bucket reaches 2 matches the chunk branch runs instead; the result is
truncated to at most 5 themes. -/
def mockAnalysisSpec (lines : List String) : List Theme :=
  if buckets.all (fun b => lines.countP (lineMatchesBucket b.2.2) < 2) then
    (chunkThemesSpec lines).take 5
  else
    (buckets.filterMap (fun b =>
      if 2 ≤ lines.countP (lineMatchesBucket b.2.2) then
        some { title := b.1, summary := b.2.1,
               quotes := (lines.filter (lineMatchesBucket b.2.2)).take 3 }
      else none)).take 5

/-- Some keyword of the list occurs as a contiguous substring of the text. -/
def kwHit (words : List String) (text : String) : Prop :=
  ∃ w ∈ words, w.data <:+: text.data

/-- The failure outcomes of the remote clustering call, per the spec:
network error or exception, non-success HTTP status, a response without a
JSON array literal, or a JSON parse failure on the matched array. -/
def remoteFailed (jsonParse : String → Option (List Theme)) : RemoteResult → Prop
  | RemoteResult.exn => True
  | RemoteResult.response ok content =>
    ok = false ∨ findJsonArray content = none ∨
      ∃ s, findJsonArray content = some s ∧ jsonParse s = none

/-- Spec wording of the header-cell condition: non-empty, shorter than 50
characters, and not composed entirely of digits. -/
def headerCellOK (cell : String) : Prop :=
  (jsTrim cell).data ≠ [] ∧ (jsTrim cell).data.length < 50 ∧
    ¬ ((jsTrim cell).data.all Char.isDigit = true)

instance (cell : String) : Decidable (headerCellOK cell) := by
  unfold headerCellOK
  infer_instance

/-- First-occurrence dedup with an explicit seen-key accumulator, pairing
each kept line with its key. -/
def dedupRest : List String → List String → List (String × String)
  | [], _ => []
  | l :: rest, seen =>
    let k := dedupKey l
    if k.length > 0 && !(seen.any (· == k)) then
      (k, l) :: dedupRest rest (seen ++ [k])
    else dedupRest rest seen

/-- Spec wording of the merger's dedup: keep the first occurrence of each
lowercased+trimmed key, preserving its original text, and drop lines whose
key is empty. -/
def dedupSpec : List String → List String
  | [] => []
  | l :: rest =>
    if dedupKey l = "" then dedupSpec rest
    else l :: dedupSpec (rest.filter (fun x => !(dedupKey x == dedupKey l)))
termination_by ls => ls.length
decreasing_by
  · simp only [List.length_cons]
    omega
  · simp only [List.length_cons]
    exact Nat.lt_succ_of_le (List.length_filter_le _ _)

/-- Spec wording of the labeled-CSV lookup: the title of the earliest theme
containing a quote with the given dedup key. -/
def firstThemeTitle (themes : List Theme) (key : String) : Option String :=
  (themes.find? (fun th => th.quotes.any (fun q => dedupKey q == key))).map Theme.title

/-- Apply a function to the first piece only. -/
def mapHead (f : List Char → List Char) : List (List Char) → List (List Char)
  | [] => []
  | h :: t => f h :: t

/-- The i-th of 600 pairwise-distinct non-empty lines (a 3-digit decimal). -/
def line600 (i : Nat) : String :=
  ⟨[Nat.digitChar (i / 100), Nat.digitChar (i / 10 % 10), Nat.digitChar (i % 10)]⟩

/-- 600 pairwise-distinct non-empty lines. -/
def bigLines : List String := (List.range 600).map line600

/-! ### Supporting lemmas: substring search -/

theorem startsWith_iff (p l : List Char) : startsWith p l = true ↔ p <+: l := by
  induction p generalizing l with
  | nil =>
    simp only [startsWith]
    exact ⟨fun _ => ⟨l, rfl⟩, fun _ => trivial⟩
  | cons a as ih =>
    cases l with
    | nil => simp [startsWith]
    | cons b bs => simp [startsWith, List.cons_prefix_cons, ih]

theorem hasInfix_iff (p l : List Char) : hasInfix p l = true ↔ p <:+: l := by
  induction l with
  | nil => simp [hasInfix, List.isEmpty_iff, List.infix_nil]
  | cons b bs ih =>
    simp only [hasInfix, Bool.or_eq_true, startsWith_iff, ih, List.infix_cons_iff]

theorem jsIncludes_iff (s sub : String) : jsIncludes s sub = true ↔ sub.data <:+: s.data :=
  hasInfix_iff _ _

theorem anyWordIn_iff (ws : List String) (text : String) :
    anyWordIn ws text = true ↔ kwHit ws text := by
  simp [anyWordIn, kwHit, List.any_eq_true, jsIncludes_iff]

/-! ### Supporting lemmas: trimming -/

theorem dropWhile_dropWhile (p : Char → Bool) (l : List Char) :
    (l.dropWhile p).dropWhile p = l.dropWhile p := by
  induction l with
  | nil => rfl
  | cons x xs ih =>
    by_cases h : p x = true
    · simp [List.dropWhile_cons, h, ih]
    · simp [List.dropWhile_cons, h]

theorem head?_dropWhile (p : Char → Bool) (l : List Char) (a : Char)
    (h : (l.dropWhile p).head? = some a) : p a = false := by
  induction l with
  | nil => simp at h
  | cons x xs ih =>
    by_cases hx : p x = true
    · rw [List.dropWhile_cons, if_pos hx] at h
      exact ih h
    · rw [List.dropWhile_cons, if_neg hx] at h
      simp only [List.head?_cons, Option.some.injEq] at h
      rw [← h]
      exact Bool.not_eq_true _ ▸ hx

theorem dropWhile_eq_self_of_head (p : Char → Bool) (l : List Char)
    (h : ∀ a, l.head? = some a → p a = false) : l.dropWhile p = l := by
  cases l with
  | nil => rfl
  | cons x xs =>
    rw [List.dropWhile_cons, if_neg]
    simp [h x rfl]

theorem dropWhile_is_suffix (p : Char → Bool) (l : List Char) :
    ∃ w, w ++ l.dropWhile p = l := by
  induction l with
  | nil => exact ⟨[], rfl⟩
  | cons x xs ih =>
    by_cases hx : p x = true
    · obtain ⟨w, hw⟩ := ih
      exact ⟨x :: w, by simp [List.dropWhile_cons, hx, hw]⟩
    · exact ⟨[], by simp [List.dropWhile_cons, hx]⟩

theorem head?_trimL (l : List Char) (a : Char) (h : (trimL l).head? = some a) :
    isWS a = false := by
  unfold trimL at h
  obtain ⟨w, hw⟩ := dropWhile_is_suffix isWS (l.dropWhile isWS).reverse
  have hrev : l.dropWhile isWS = ((l.dropWhile isWS).reverse.dropWhile isWS).reverse ++ w.reverse := by
    have := congrArg List.reverse hw
    simpa [List.reverse_append] using this.symm
  have hne : ((l.dropWhile isWS).reverse.dropWhile isWS).reverse ≠ [] := by
    intro hnil
    rw [hnil] at h
    simp at h
  have hhead : (l.dropWhile isWS).head? = some a := by
    rw [hrev, List.head?_append_of_ne_nil _ hne]
    exact h
  exact head?_dropWhile isWS l a hhead

theorem head?_reverse_trimL (l : List Char) (a : Char)
    (h : (trimL l).reverse.head? = some a) : isWS a = false := by
  unfold trimL at h
  rw [List.reverse_reverse] at h
  exact head?_dropWhile isWS _ a h

theorem trimL_idem (l : List Char) : trimL (trimL l) = trimL l := by
  conv_lhs => rw [trimL]
  rw [dropWhile_eq_self_of_head isWS (trimL l) (head?_trimL l)]
  rw [dropWhile_eq_self_of_head isWS (trimL l).reverse (head?_reverse_trimL l)]
  rw [List.reverse_reverse]

theorem jsTrim_idem (s : String) : jsTrim (jsTrim s) = jsTrim s := by
  simp [jsTrim, trimL_idem]

/-! ### C4: the per-line CSV tokenizer -/

theorem parseCSVLineGo_trimmed (delim : Char) (inQuotes : Bool) (current : List Char)
    (acc : List String) (l : List Char) :
    (∀ f ∈ acc, jsTrim f = f) →
      ∀ f ∈ parseCSVLineGo delim inQuotes current acc l, jsTrim f = f := by
  induction inQuotes, current, acc, l using parseCSVLineGo.induct delim with
  | case1 inQ cur acc =>
    intro hacc f hf
    rw [parseCSVLineGo.eq_1] at hf
    rcases List.mem_append.mp hf with hf | hf
    · exact hacc f hf
    · rw [List.mem_singleton.mp hf]
      exact jsTrim_idem _
  | case2 cur acc bs ih =>
    intro hacc
    rw [parseCSVLineGo.eq_2, if_pos rfl]
    exact ih hacc
  | case3 inQ cur acc bs hcond ih =>
    intro hacc
    rw [parseCSVLineGo.eq_2, if_neg hcond]
    exact ih hacc
  | case4 inQ cur acc bs hshape ih =>
    intro hacc
    rw [parseCSVLineGo.eq_3 _ _ _ _ _ hshape]
    exact ih hacc
  | case5 inQ cur acc b bs hshape hb hcond ih =>
    intro hacc
    rw [parseCSVLineGo.eq_4 _ _ _ _ _ _ hshape hb, if_pos hcond]
    refine ih fun f hf => ?_
    rcases List.mem_append.mp hf with hf | hf
    · exact hacc f hf
    · rw [List.mem_singleton.mp hf]
      exact jsTrim_idem _
  | case6 inQ cur acc b bs hshape hb hcond ih =>
    intro hacc
    rw [parseCSVLineGo.eq_4 _ _ _ _ _ _ hshape hb, if_neg hcond]
    exact ih hacc

theorem splitOnChar_ne_nil (c : Char) (l : List Char) : splitOnChar c l ≠ [] := by
  cases l with
  | nil => simp [splitOnChar]
  | cons x xs =>
    simp only [splitOnChar]
    by_cases hx : x = c
    · simp [hx]
    · simp only [if_neg hx]
      cases splitOnChar c xs with
      | nil => simp
      | cons h t => simp

theorem mapHead_id_append (xs : List (List Char)) :
    mapHead (fun h => [] ++ h) xs = xs := by
  cases xs <;> simp [mapHead]

theorem parseCSVLineGo_noquote (delim : Char) (l : List Char) :
    ∀ (current : List Char) (acc : List String), (∀ c ∈ l, c ≠ '"') →
      parseCSVLineGo delim false current acc l =
        acc ++ (mapHead (fun h => current ++ h) (splitOnChar delim l)).map
          (fun p => jsTrim ⟨p⟩) := by
  induction l with
  | nil =>
    intro current acc _
    simp [parseCSVLineGo, splitOnChar, mapHead]
  | cons c rest ih =>
    intro current acc hl
    have hc : ¬(c = '"') := hl c (List.mem_cons_self c rest)
    have hrest : ∀ x ∈ rest, x ≠ '"' := fun x hx => hl x (List.mem_cons_of_mem c hx)
    rw [parseCSVLineGo.eq_4 _ _ _ _ _ _ (fun _ hq _ => absurd hq hc) (fun hq => absurd hq hc)]
    by_cases hcd : c = delim
    · rw [if_pos (by simp [hcd])]
      rw [ih [] (acc ++ [jsTrim ⟨current⟩]) hrest]
      rw [mapHead_id_append]
      simp only [splitOnChar, if_pos hcd, mapHead, List.map_cons, List.append_assoc,
        List.append_nil, List.singleton_append]
    · rw [if_neg (by simp [hcd])]
      rw [ih (current ++ [c]) acc hrest]
      obtain ⟨h, t, hsplit⟩ : ∃ h t, splitOnChar delim rest = h :: t := by
        cases hx : splitOnChar delim rest with
        | nil => exact absurd hx (splitOnChar_ne_nil delim rest)
        | cons h t => exact ⟨h, t, rfl⟩
      simp only [splitOnChar, if_neg hcd, hsplit, mapHead, List.map_cons, List.nil_append,
        List.append_assoc, List.cons_append]

/-- C4: the per-line tokenizer splits fields at the delimiter only outside
quotes, a doubled quote inside quotes emits one literal quote, every emitted
field is trimmed, and on a quote-free line it reduces to a plain
split-and-trim; tokenizing `"a,b","c""d",e` with delimiter `,` yields the
fields `a,b` and `c"d` and `e`. -/
theorem chorus_C4 :
    (∀ (line : String) (delim : Char), ∀ f ∈ parseCSVLine line delim, jsTrim f = f) ∧
    (∀ (line : String) (delim : Char), (∀ c ∈ line.data, c ≠ '"') →
      parseCSVLine line delim =
        (splitOnChar delim line.data).map (fun p => jsTrim ⟨p⟩)) ∧
    parseCSVLine "\"a,b\",\"c\"\"d\",e" ',' = ["a,b", "c\"d", "e"] := by
  refine ⟨?_, ?_, by decide⟩
  · intro line delim f hf
    exact parseCSVLineGo_trimmed delim false [] [] line.data (by simp) f hf
  · intro line delim hq
    rw [parseCSVLine, parseCSVLineGo_noquote delim line.data [] [] hq]
    rw [mapHead_id_append]
    rfl

/-- Witness for C4 at concrete inputs. -/
theorem chorus_C4_witness :
    jsTrim "x" = "x" ∧
      parseCSVLine "a, b" ',' = (splitOnChar ',' ("a, b" : String).data).map
        (fun p => jsTrim ⟨p⟩) :=
  ⟨chorus_C4.1 "x, y" ',' "x" (by decide), chorus_C4.2.1 "a, b" ',' (by decide)⟩

/-! ### C6: the impact/effort tagger -/

theorem word_infix_append (w : String) (l r : List Char) (h : w.data <:+: r) :
    w.data <:+: l ++ r := by
  obtain ⟨s, t, hst⟩ := h
  exact ⟨l ++ s, t, by rw [← hst]; simp [List.append_assoc]⟩

theorem themeText_data (th : Theme) :
    (themeText th).data =
      th.title.data.map Char.toLower ++ ((" " : String).data ++ th.summary.data).map Char.toLower := by
  simp [themeText, jsToLower, String.data_append, List.map_append, List.append_assoc]

/-- C6: impact is High iff a high-severity keyword occurs in the case-folded
title+summary; otherwise Low iff a low-severity keyword occurs; otherwise
Med; effort follows the same High-Low-Med priority over its own lists; and
any theme whose summary is "The app has a critical security issue" gets
impact High. -/
theorem chorus_C6 :
    (∀ th : Theme,
      ((guessImpactEffort th).1 = Rating.High ↔ kwHit highImpactWords (themeText th)) ∧
      (¬ kwHit highImpactWords (themeText th) →
        ((guessImpactEffort th).1 = Rating.Low ↔ kwHit lowImpactWords (themeText th))) ∧
      (¬ kwHit highImpactWords (themeText th) → ¬ kwHit lowImpactWords (themeText th) →
        (guessImpactEffort th).1 = Rating.Med) ∧
      ((guessImpactEffort th).2 = Rating.High ↔ kwHit highEffortWords (themeText th)) ∧
      (¬ kwHit highEffortWords (themeText th) →
        ((guessImpactEffort th).2 = Rating.Low ↔ kwHit lowEffortWords (themeText th))) ∧
      (¬ kwHit highEffortWords (themeText th) → ¬ kwHit lowEffortWords (themeText th) →
        (guessImpactEffort th).2 = Rating.Med)) ∧
    (∀ (title : String) (quotes : List String) (imp eff : Option Rating),
      (guessImpactEffort
        { title := title, summary := "The app has a critical security issue",
          quotes := quotes, impact := imp, effort := eff }).1 = Rating.High) := by
  constructor
  · intro th
    simp only [guessImpactEffort, ← anyWordIn_iff]
    split_ifs <;> simp_all
  · intro title quotes imp eff
    have hk : kwHit highImpactWords
        (themeText { title := title, summary := "The app has a critical security issue",
                     quotes := quotes, impact := imp, effort := eff }) := by
      refine ⟨"critical", by decide, ?_⟩
      rw [themeText_data]
      exact word_infix_append _ _
        ((((" " : String).data ++ ("The app has a critical security issue" : String).data).map
          Char.toLower)) (by decide)
    simp only [guessImpactEffort, if_pos ((anyWordIn_iff _ _).mpr hk)]

/-- Witness for C6 at a concrete theme exercising the non-High branches. -/
theorem chorus_C6_witness :
    (guessImpactEffort { title := "Wish", summary := "nice to have, minor", quotes := [] }).1 =
        Rating.Low ∧
      (guessImpactEffort { title := "Wish", summary := "nice to have, minor", quotes := [] }).2 =
        Rating.Med := by
  constructor
  · refine ((chorus_C6.1 _).2.1 ?_).mpr ?_
    · rw [← anyWordIn_iff]
      decide
    · rw [← anyWordIn_iff]
      decide
  · refine (chorus_C6.1 _).2.2.2.2.2 ?_ ?_
    · rw [← anyWordIn_iff]
      decide
    · rw [← anyWordIn_iff]
      decide

/-! ### C5: the insufficient-input error -/

/-- C5: the extractor fails with the insufficient-input error exactly when
fewer than 3 trimmed non-empty lines are present; with at least 3 lines it
always returns themes. -/
theorem chorus_C5 (jsonParse : String → Option (List Theme)) (text : String)
    (remote : RemoteResult) :
    (analyzeFeedback jsonParse text remote = Except.error "Not enough feedback lines" ↔
      (analysisLines text).length < 3) ∧
    (3 ≤ (analysisLines text).length →
      ∃ themes, analyzeFeedback jsonParse text remote = Except.ok themes) := by
  have hok : 3 ≤ (analysisLines text).length →
      ∃ themes, analyzeFeedback jsonParse text remote = Except.ok themes := by
    intro h3
    unfold analyzeFeedback
    rw [if_neg (by omega)]
    cases remote with
    | exn => exact ⟨_, rfl⟩
    | response ok content =>
      cases ok with
      | false => exact ⟨_, rfl⟩
      | true =>
        cases hfa : findJsonArray content with
        | none => exact ⟨mockAnalysis (analysisLines text), by simp [hfa]⟩
        | some s =>
          cases hp : jsonParse s with
          | none => exact ⟨mockAnalysis (analysisLines text), by simp [hfa, hp]⟩
          | some themes => exact ⟨themes, by simp [hfa, hp]⟩
  constructor
  · constructor
    · intro h
      by_contra hlen
      obtain ⟨themes, hthemes⟩ := hok (by omega)
      rw [h] at hthemes
      exact Except.noConfusion hthemes
    · intro h
      unfold analyzeFeedback
      rw [if_pos h]
  · exact hok

/-- Witness for C5 at a concrete input with 3 lines. -/
theorem chorus_C5_witness :
    3 ≤ (analysisLines "a\nb\nc").length ∧
      ∃ themes, analyzeFeedback (fun _ => none) "a\nb\nc" RemoteResult.exn =
        Except.ok themes :=
  ⟨by decide, (chorus_C5 (fun _ => none) "a\nb\nc" RemoteResult.exn).2 (by decide)⟩

/-! ### C2: silent fallback on remote failure -/

/-- C2: with at least 3 lines, every failing outcome of the remote call
(network error or exception, non-success status, missing JSON array, parse
failure) yields exactly the fallback classifier's themes, and the extractor
always returns themes, never a remote error. -/
theorem chorus_C2 (jsonParse : String → Option (List Theme)) (text : String)
    (remote : RemoteResult) (h3 : 3 ≤ (analysisLines text).length) :
    (remoteFailed jsonParse remote →
      analyzeFeedback jsonParse text remote =
        Except.ok (mockAnalysis (analysisLines text))) ∧
    ∃ themes, analyzeFeedback jsonParse text remote = Except.ok themes := by
  refine ⟨?_, (chorus_C5 jsonParse text remote).2 h3⟩
  intro hfail
  unfold analyzeFeedback
  rw [if_neg (by omega)]
  cases remote with
  | exn => rfl
  | response ok content =>
    rcases hfail with hok | hfa | ⟨s, hfa, hp⟩
    · rw [hok]
      rfl
    · cases ok with
      | false => rfl
      | true => simp [hfa]
    · cases ok with
      | false => rfl
      | true => simp [hfa, hp]

/-- Witness for C2 at a concrete failing remote call. -/
theorem chorus_C2_witness :
    3 ≤ (analysisLines "a\nb\nc").length ∧
      analyzeFeedback (fun _ => none) "a\nb\nc" RemoteResult.exn =
        Except.ok (mockAnalysis (analysisLines "a\nb\nc")) :=
  ⟨by decide, (chorus_C2 (fun _ => none) "a\nb\nc" RemoteResult.exn (by decide)).1 trivial⟩

/-! ### C9: quote-count invariant of fallback themes (corrected) -/

/-- Counterexample to C9 as stated: a valid 3-line analysis input on which
every fallback theme carries a single quote, below the claimed minimum 2. -/
theorem chorus_C9_counterexample :
    (mockAnalysis (analysisLines "Aaa\nBbb\nCcc")).map (fun th => th.quotes.length) =
        [1, 1, 1] ∧
      3 ≤ (analysisLines "Aaa\nBbb\nCcc").length := by decide

/-- C9 amended: every fallback theme has between 1 and 5 quotes (in fact at
most 3), all verbatim input lines; bucket-branch themes have at least 2
quotes; chunk-branch themes may have a single quote. -/
theorem chorus_C9_amended (lines : List String) (th : Theme)
    (hth : th ∈ mockAnalysis lines) :
    (1 ≤ th.quotes.length ∧ th.quotes.length ≤ 5) ∧
    (∀ q ∈ th.quotes, q ∈ lines) ∧
    (bucketThemes lines ≠ [] → 2 ≤ th.quotes.length) := by
  unfold mockAnalysis at hth
  have hth' := List.mem_of_mem_take hth
  by_cases hb : (bucketThemes lines).isEmpty
  · rw [if_pos hb] at hth'
    unfold chunkThemes at hth'
    obtain ⟨i, _, hi⟩ := List.mem_filterMap.mp hth'
    by_cases h1 : i * ((lines.length + 2) / 3) < lines.length
    · rw [if_pos h1] at hi
      by_cases h2 : 0 < ((lines.drop (i * ((lines.length + 2) / 3))).take
          ((lines.length + 2) / 3)).length
      · rw [if_pos h2, Option.some_inj] at hi
        subst hi
        refine ⟨⟨?_, ?_⟩, ?_, ?_⟩
        · simpa [List.length_take] using by omega
        · simp only [List.length_take]
          omega
        · intro q hq
          exact List.mem_of_mem_drop (List.mem_of_mem_take (List.mem_of_mem_take hq))
        · intro habs
          exact absurd (List.isEmpty_iff.mp hb) habs
      · rw [if_neg h2] at hi
        exact Option.noConfusion hi
    · rw [if_neg h1] at hi
      exact Option.noConfusion hi
  · rw [if_neg hb] at hth'
    unfold bucketThemes at hth'
    obtain ⟨b, _, hbth⟩ := List.mem_filterMap.mp hth'
    by_cases h2 : 2 ≤ (lines.filter (lineMatchesBucket b.2.2)).length
    · rw [if_pos h2, Option.some_inj] at hbth
      subst hbth
      refine ⟨⟨?_, ?_⟩, ?_, fun _ => ?_⟩
      · simp only [List.length_take]
        omega
      · simp only [List.length_take]
        omega
      · intro q hq
        exact List.mem_of_mem_filter (List.mem_of_mem_take hq)
      · simp only [List.length_take]
        omega
    · rw [if_neg h2] at hbth
      exact Option.noConfusion hbth

/-- Witness for the amended C9 at the performance-bucket example. -/
theorem chorus_C9_witness :
    2 ≤ (Theme.mk "Performance and Stability Concerns"
        "Users report slow loading times and reliability issues."
        ["App crashes on load", "Frequent crashes reported"] none none).quotes.length :=
  (chorus_C9_amended ["App crashes on load", "Frequent crashes reported"] _
    (by decide)).2.2 (by decide)

/-! ### C1: the fallback classifier against its spec-side description -/

theorem bucketThemes_eq_spec (lines : List String) :
    buckets.filterMap (fun b =>
        if 2 ≤ lines.countP (lineMatchesBucket b.2.2) then
          some { title := b.1, summary := b.2.1,
                 quotes := (lines.filter (lineMatchesBucket b.2.2)).take 3 }
        else none) = bucketThemes lines := by
  unfold bucketThemes
  exact List.filterMap_congr fun b _ => by
    rw [List.countP_eq_length_filter]

theorem bucketThemes_isEmpty_iff (lines : List String) :
    (bucketThemes lines).isEmpty =
      buckets.all (fun b => lines.countP (lineMatchesBucket b.2.2) < 2) := by
  rw [Bool.eq_iff_iff]
  simp only [List.isEmpty_iff, bucketThemes, List.filterMap_eq_nil_iff, List.all_eq_true,
    List.countP_eq_length_filter]
  refine forall_congr' fun b => forall_congr' fun _ => ?_
  by_cases h : 2 ≤ (lines.filter (lineMatchesBucket b.2.2)).length
  · simp [h, Nat.not_lt.mpr h]
  · simp [h, Nat.lt_of_not_le h]

theorem chunkThemes_eq_spec (lines : List String) :
    chunkThemes lines = chunkThemesSpec lines := by
  simp only [chunkThemes, chunkThemesSpec]
  apply List.filterMap_congr
  intro i _
  by_cases h1 : i * ((lines.length + 2) / 3) < lines.length
  · have hchunk : 0 < ((lines.drop (i * ((lines.length + 2) / 3))).take
        ((lines.length + 2) / 3)).length := by
      rw [List.length_take, List.length_drop]
      omega
    have hne : (lines.drop (i * ((lines.length + 2) / 3))).take
        ((lines.length + 2) / 3) ≠ [] := by
      intro h
      rw [h] at hchunk
      simp at hchunk
    rw [if_pos h1, if_pos hchunk, if_neg hne]
  · have hnil : (lines.drop (i * ((lines.length + 2) / 3))).take
        ((lines.length + 2) / 3) = [] := by
      rw [List.drop_eq_nil_of_le (by omega), List.take_nil]
    rw [if_neg h1, if_pos hnil]

/-- C1: the fallback classifier agrees with its spec-side description — a
bucket becomes a theme iff at least 2 lines match it (case-insensitive
substring test), quoting its first 3 matches in input order; if no bucket
reaches 2 matches, 3 contiguous ceiling-sized chunks produce one generic
theme per non-empty chunk; the result is truncated to 5 themes — and on the
two performance lines it yields exactly the one performance theme. -/
theorem chorus_C1 :
    (∀ lines, mockAnalysis lines = mockAnalysisSpec lines) ∧
    mockAnalysis ["App crashes on load", "Frequent crashes reported"] =
      [{ title := "Performance and Stability Concerns",
         summary := "Users report slow loading times and reliability issues.",
         quotes := ["App crashes on load", "Frequent crashes reported"] }] := by
  refine ⟨?_, by decide⟩
  intro lines
  unfold mockAnalysis mockAnalysisSpec
  rw [bucketThemes_eq_spec, ← bucketThemes_isEmpty_iff]
  by_cases hE : (bucketThemes lines).isEmpty
  · simp only [hE, if_true, chunkThemes_eq_spec]
  · simp only [Bool.not_eq_true] at hE
    simp [hE]

/-! ### C7: header detection -/

theorem string_length_data (s : String) : s.length = s.data.length := rfl

theorem looksLikeHeaderCell_iff (cell : String) :
    looksLikeHeaderCell cell = true ↔ headerCellOK cell := by
  unfold looksLikeHeaderCell headerCellOK
  simp only [string_length_data, Bool.and_eq_true, decide_eq_true_eq, Bool.not_eq_true',
    Bool.and_eq_false_iff, decide_eq_false_iff_not, Nat.not_lt, gt_iff_lt,
    ← List.length_pos]
  constructor
  · rintro ⟨⟨h1, h2⟩, h3⟩
    refine ⟨h1, h2, ?_⟩
    rcases h3 with h3 | h3
    · omega
    · simp [h3]
  · rintro ⟨h1, h2, h3⟩
    refine ⟨⟨h1, h2⟩, ?_⟩
    right
    simp only [Bool.not_eq_true] at h3 ⊢
    exact h3

/-- C7: the first parsed row becomes the header row iff every cell is
non-empty, shorter than 50 characters and not all digits, and the file has
more than one row; otherwise the first row is kept as data and headers are
absent. -/
theorem chorus_C7 (text : String) (l0 : String) (rest : List String)
    (h : csvLines text = l0 :: rest) :
    ∃ pc, parseCSVText text = Except.ok pc ∧
      pc.detectedDelimiter = detectDelimiter text ∧
      (((∀ cell ∈ parseCSVLine l0 (detectDelimiter text), headerCellOK cell) ∧ rest ≠ []) →
        pc.headers = some (parseCSVLine l0 (detectDelimiter text)) ∧
        pc.rows = rest.map (fun line => parseCSVLine line (detectDelimiter text))) ∧
      (¬ ((∀ cell ∈ parseCSVLine l0 (detectDelimiter text), headerCellOK cell) ∧ rest ≠ []) →
        pc.headers = none ∧
        pc.rows = (l0 :: rest).map (fun line => parseCSVLine line (detectDelimiter text))) := by
  have hiff : ((parseCSVLine l0 (detectDelimiter text)).all looksLikeHeaderCell &&
      decide (((l0 :: rest).map (fun line => parseCSVLine line (detectDelimiter text))).length > 1))
        = true ↔
      ((∀ cell ∈ parseCSVLine l0 (detectDelimiter text), headerCellOK cell) ∧ rest ≠ []) := by
    simp only [Bool.and_eq_true, List.all_eq_true, looksLikeHeaderCell_iff, decide_eq_true_eq,
      List.length_map, List.length_cons, gt_iff_lt]
    constructor
    · rintro ⟨h1, h2⟩
      refine ⟨h1, ?_⟩
      intro hnil
      rw [hnil] at h2
      simp at h2
    · rintro ⟨h1, h2⟩
      refine ⟨h1, ?_⟩
      have : rest ≠ [] := h2
      have hpos : 0 < rest.length := List.length_pos.mpr this
      omega
  unfold parseCSVText
  rw [h]
  dsimp only
  by_cases hcond : ((parseCSVLine l0 (detectDelimiter text)).all looksLikeHeaderCell &&
      decide (((l0 :: rest).map (fun line => parseCSVLine line (detectDelimiter text))).length > 1))
        = true
  · rw [if_pos hcond]
    refine ⟨_, rfl, rfl, fun _ => ⟨rfl, ?_⟩, fun hn => absurd (hiff.mp hcond) hn⟩
    simp [List.map_cons]
  · rw [if_neg hcond]
    refine ⟨_, rfl, rfl, fun hy => absurd (hiff.mpr hy) hcond, fun _ => ⟨rfl, rfl⟩⟩

/-- Witness for C7 at a concrete two-row CSV with a header row. -/
theorem chorus_C7_witness :
    ∃ pc, parseCSVText "name,comment\n1,hello" = Except.ok pc ∧
      pc.headers = some (parseCSVLine "name,comment" (detectDelimiter "name,comment\n1,hello")) := by
  obtain ⟨pc, hok, _, himp, _⟩ :=
    chorus_C7 "name,comment\n1,hello" "name,comment" ["1,hello"] (by decide)
  exact ⟨pc, hok, (himp (by decide)).1⟩

/-! ### C8: the column selector -/

theorem foldl_max_le (l : List ℚ) (a : ℚ) : a ≤ l.foldl max a := by
  induction l generalizing a with
  | nil => exact le_refl a
  | cons x xs ih => exact le_trans (le_max_left a x) (ih (max a x))

theorem foldl_max_mem_le (l : List ℚ) (a x : ℚ) (hx : x ∈ l) : x ≤ l.foldl max a := by
  induction l generalizing a with
  | nil => cases hx
  | cons y ys ih =>
    rcases List.mem_cons.mp hx with h | h
    · subst h
      exact le_trans (le_max_right a x) (foldl_max_le ys (max a x))
    · exact ih (max a y) h

theorem foldl_max_choice (l : List ℚ) (a : ℚ) : l.foldl max a = a ∨ l.foldl max a ∈ l := by
  induction l generalizing a with
  | nil => exact Or.inl rfl
  | cons x xs ih =>
    rcases ih (max a x) with h | h
    · by_cases hax : a ≤ x
      · right
        rw [List.foldl_cons, h, max_eq_right hax]
        exact List.mem_cons_self x xs
      · left
        rw [List.foldl_cons, h, max_eq_left (le_of_not_le hax)]
    · right
      exact List.mem_cons_of_mem x h

theorem listMax_mem (l : List ℚ) (h : l ≠ []) : listMax l ∈ l := by
  cases l with
  | nil => exact absurd rfl h
  | cons x xs =>
    simp only [listMax]
    rcases foldl_max_choice xs x with h1 | h1
    · rw [h1]
      exact List.mem_cons_self x xs
    · exact List.mem_cons_of_mem x h1

theorem le_listMax (l : List ℚ) (x : ℚ) (hx : x ∈ l) : x ≤ listMax l := by
  cases l with
  | nil => cases hx
  | cons y ys =>
    simp only [listMax]
    rcases List.mem_cons.mp hx with h | h
    · subst h
      exact foldl_max_le ys x
    · exact foldl_max_mem_le ys y x h

theorem getD_ne_of_lt_indexOf (l : List ℚ) (a : ℚ) (j : Nat) (h : j < l.indexOf a) :
    l.getD j 0 ≠ a := by
  induction l generalizing j with
  | nil => simp [List.indexOf] at h
  | cons b t ih =>
    by_cases hba : b = a
    · rw [List.indexOf_cons_eq t hba] at h
      omega
    · rw [List.indexOf_cons_ne t hba] at h
      cases j with
      | zero =>
        rw [List.getD_cons_zero]
        exact hba
      | succ j =>
        rw [List.getD_cons_succ]
        exact ih j (by omega)

theorem getD_indexOf_eq (l : List ℚ) (a : ℚ) (h : a ∈ l) : l.getD (l.indexOf a) 0 = a := by
  rw [List.getD_eq_getElem _ _ (List.indexOf_lt_length.mpr h)]
  exact List.getElem_indexOf _

/-- C8: the selector returns column 0 without scoring when headers are
absent or empty; a column with no non-empty sampled cell scores 0; with
non-empty headers it returns the first index attaining the maximal score
`0.7*avgLen + 0.3*avgAlpha` over the non-empty cells of the first 10 rows. -/
theorem chorus_C8 :
    (∀ rows, chooseTextColumn none rows = 0 ∧ chooseTextColumn (some []) rows = 0) ∧
    (∀ rows col, (rows.take 10).filterMap (cellNonEmptyAt col) = [] →
      columnScore rows col = 0) ∧
    (∀ (hs : List String) (rows : List (List String)), hs ≠ [] →
      chooseTextColumn (some hs) rows < hs.length ∧
      (∀ j, j < hs.length →
        ((List.range hs.length).map (columnScore rows)).getD j 0 ≤
          ((List.range hs.length).map (columnScore rows)).getD
            (chooseTextColumn (some hs) rows) 0) ∧
      (∀ j, j < chooseTextColumn (some hs) rows →
        ((List.range hs.length).map (columnScore rows)).getD j 0 <
          ((List.range hs.length).map (columnScore rows)).getD
            (chooseTextColumn (some hs) rows) 0)) := by
  refine ⟨fun rows => ⟨rfl, rfl⟩, fun rows col h => by simp [columnScore, h], ?_⟩
  intro hs rows hne
  have hEmpty : hs.isEmpty = false := by
    cases hs with
    | nil => exact absurd rfl hne
    | cons a t => rfl
  have hchoose : chooseTextColumn (some hs) rows =
      ((List.range hs.length).map (columnScore rows)).indexOf
        (listMax ((List.range hs.length).map (columnScore rows))) := by
    simp only [chooseTextColumn, hEmpty, Bool.false_eq_true, if_false]
  set scores := (List.range hs.length).map (columnScore rows) with hscores
  have hslen : scores.length = hs.length := by
    rw [hscores, List.length_map, List.length_range]
  have hsne : scores ≠ [] := by
    intro habs
    rw [habs] at hslen
    cases hs with
    | nil => exact absurd rfl hne
    | cons a t => simp at hslen
  have hmem : listMax scores ∈ scores := listMax_mem scores hsne
  have hidx : scores.indexOf (listMax scores) < scores.length :=
    List.indexOf_lt_length.mpr hmem
  have hmax : scores.getD (scores.indexOf (listMax scores)) 0 = listMax scores :=
    getD_indexOf_eq scores _ hmem
  refine ⟨?_, ?_, ?_⟩
  · rw [hchoose]
    omega
  · intro j hj
    rw [hchoose, hmax]
    have hj' : j < scores.length := by omega
    rw [List.getD_eq_getElem _ _ hj']
    exact le_listMax scores _ (List.getElem_mem hj')
  · intro j hj
    rw [hchoose] at hj ⊢
    rw [hmax]
    have hjlen : j < scores.length := by omega
    have hle : scores.getD j 0 ≤ listMax scores := by
      rw [List.getD_eq_getElem _ _ hjlen]
      exact le_listMax scores _ (List.getElem_mem hjlen)
    exact lt_of_le_of_ne hle (getD_ne_of_lt_indexOf scores _ j hj)

/-- Witness for C8 at concrete headers. -/
theorem chorus_C8_witness :
    (["a", "b"] : List String) ≠ [] ∧
      chooseTextColumn (some ["a", "b"])
        [["hello world text", "1"], ["longer feedback line", "2"]] < 2 ∧
      columnScore [] 0 = 0 :=
  ⟨by decide,
    (chorus_C8.2.2 ["a", "b"] [["hello world text", "1"], ["longer feedback line", "2"]]
      (by decide)).1,
    chorus_C8.2.1 [] 0 (by decide)⟩

/-! ### C3: the input merger -/

theorem mergeGo_eq_dedupRest (ls : List String) (m : List (String × String)) :
    mergeGo ls m = m ++ dedupRest ls (m.map Prod.fst) := by
  induction ls generalizing m with
  | nil => simp [mergeGo, dedupRest]
  | cons line rest ih =>
    have hany : (m.map Prod.fst).any (· == dedupKey line) =
        m.any (fun p => p.1 == dedupKey line) := by
      induction m with
      | nil => rfl
      | cons p ps ihp => simp [List.any_cons, ihp]
    simp only [mergeGo, dedupRest, hany]
    by_cases hc : ((dedupKey line).length > 0 && !(m.any (fun p => p.1 == dedupKey line))) = true
    · rw [if_pos hc, if_pos hc, ih]
      simp [List.map_append, List.append_assoc]
    · rw [if_neg hc, if_neg hc, ih]

theorem dedupRest_congr (ls : List String) (seen1 seen2 : List String)
    (h : ∀ k, seen1.any (· == k) = seen2.any (· == k)) :
    dedupRest ls seen1 = dedupRest ls seen2 := by
  induction ls generalizing seen1 seen2 with
  | nil => rfl
  | cons l rest ih =>
    simp only [dedupRest, h (dedupKey l)]
    by_cases hc : ((dedupKey l).length > 0 && !(seen2.any (· == dedupKey l))) = true
    · rw [if_pos hc, if_pos hc]
      exact congrArg (List.cons _)
        (ih (seen1 ++ [dedupKey l]) (seen2 ++ [dedupKey l])
          (fun k => by simp [List.any_append, h k]))
    · rw [if_neg hc, if_neg hc]
      exact ih _ _ h

theorem dedupRest_filter_seen (ls : List String) (seen : List String) (key : String) :
    dedupRest ls (seen ++ [key]) =
      dedupRest (ls.filter (fun x => !(dedupKey x == key))) seen := by
  induction ls generalizing seen with
  | nil => rfl
  | cons l rest ih =>
    by_cases hk : (dedupKey l == key) = true
    · have hkey : dedupKey l = key := by simpa using hk
      have hseen : ((seen ++ [key]).any (· == dedupKey l)) = true := by
        simp [List.any_append, hkey]
      rw [List.filter_cons_of_neg (by simp [hk])]
      simp only [dedupRest, hseen]
      rw [if_neg (by simp)]
      exact ih seen
    · have hne : dedupKey l ≠ key := by simpa using hk
      have hseen : ((seen ++ [key]).any (· == dedupKey l)) = (seen.any (· == dedupKey l)) := by
        simp only [List.any_append, List.any_cons, List.any_nil, Bool.or_false]
        have : (key == dedupKey l) = false := by
          simp [Ne.symm hne]
        rw [this, Bool.or_false]
      rw [List.filter_cons_of_pos (by simp [hk])]
      simp only [dedupRest, hseen]
      by_cases hc : ((dedupKey l).length > 0 && !(seen.any (· == dedupKey l))) = true
      · rw [if_pos hc, if_pos hc]
        rw [dedupRest_congr rest ((seen ++ [key]) ++ [dedupKey l])
          ((seen ++ [dedupKey l]) ++ [key])
          (fun k => by simp [List.any_append, Bool.or_comm, Bool.or_assoc, Bool.or_left_comm])]
        rw [ih (seen ++ [dedupKey l])]
      · rw [if_neg hc, if_neg hc]
        exact ih seen

theorem dedupRest_nil_eq_spec (ls : List String) :
    (dedupRest ls []).map Prod.snd = dedupSpec ls := by
  induction ls using dedupSpec.induct with
  | case1 => simp [dedupRest, dedupSpec]
  | case2 l rest hkey ihr =>
    have hlen : (dedupKey l).length = 0 := by
      rw [hkey]
      rfl
    have hspec : dedupSpec (l :: rest) = dedupSpec rest := by
      simp only [dedupSpec]
      rw [if_pos hkey]
    rw [hspec]
    simp only [dedupRest, List.any_nil, Bool.not_false, Bool.and_true, hlen]
    rw [if_neg (by decide)]
    exact ihr
  | case3 l rest hkey ihr =>
    have hlen : 0 < (dedupKey l).length := by
      rcases hd : (dedupKey l).data with _ | ⟨c, cs⟩
      · exact absurd (congrArg String.mk hd) hkey
      · rw [string_length_data, hd]
        simp
    have hspec : dedupSpec (l :: rest) =
        l :: dedupSpec (rest.filter (fun x => !(dedupKey x == dedupKey l))) := by
      simp only [dedupSpec]
      rw [if_neg hkey]
    rw [hspec]
    simp only [dedupRest, List.any_nil, Bool.not_false, Bool.and_true]
    rw [if_pos (by simpa using hlen), List.map_cons]
    congr 1
    rw [dedupRest_filter_seen rest [] (dedupKey l)]
    exact ihr

theorem mergeGo_nil_snd (ls : List String) :
    (mergeGo ls []).map Prod.snd = dedupSpec ls := by
  rw [mergeGo_eq_dedupRest ls []]
  simpa using dedupRest_nil_eq_spec ls

/-- C3: the merger concatenates free-text before CSV lines, dedupes on the
lowercased+trimmed key keeping first occurrences and dropping empty keys,
and caps at 500; `merged.length = min(totalBeforeCap, 500)`, `capped` holds
iff the unique count exceeds 500, and `totalBeforeCap` is the pre-cap unique
count; 600 unique non-empty lines give 500/true/600. -/
theorem chorus_C3 :
    (∀ tls cls : List String,
      (mergeInputs tls cls).merged = (dedupSpec (tls ++ cls)).take 500 ∧
      (mergeInputs tls cls).stats.totalBeforeCap = (dedupSpec (tls ++ cls)).length ∧
      (mergeInputs tls cls).merged.length = min (dedupSpec (tls ++ cls)).length 500 ∧
      ((mergeInputs tls cls).stats.capped = true ↔ 500 < (dedupSpec (tls ++ cls)).length)) ∧
    (∀ tls cls : List String, (mergeInputs tls cls).stats.totalBeforeCap = 600 →
      (mergeInputs tls cls).merged.length = 500 ∧
      (mergeInputs tls cls).stats.capped = true) := by
  have hfields : ∀ tls cls : List String,
      (mergeInputs tls cls).merged = (dedupSpec (tls ++ cls)).take 500 ∧
      (mergeInputs tls cls).stats.totalBeforeCap = (dedupSpec (tls ++ cls)).length ∧
      (mergeInputs tls cls).stats.capped =
        decide (500 < (dedupSpec (tls ++ cls)).length) := by
    intro tls cls
    refine ⟨?_, ?_, ?_⟩
    · show ((mergeGo (tls ++ cls) []).map Prod.snd).take 500 = _
      rw [mergeGo_nil_snd]
    · show ((mergeGo (tls ++ cls) []).map Prod.snd).length = _
      rw [mergeGo_nil_snd]
    · show decide (((mergeGo (tls ++ cls) []).map Prod.snd).length > 500) = _
      rw [mergeGo_nil_snd]
  constructor
  · intro tls cls
    obtain ⟨h1, h2, h3⟩ := hfields tls cls
    refine ⟨h1, h2, ?_, ?_⟩
    · rw [h1, List.length_take, Nat.min_comm]
    · rw [h3]
      exact decide_eq_true_iff
  · intro tls cls h600
    obtain ⟨h1, h2, h3⟩ := hfields tls cls
    rw [h2] at h600
    constructor
    · rw [h1, List.length_take]
      omega
    · rw [h3, h600]
      rfl

theorem dedupSpec_of_clean (ls : List String)
    (h1 : ∀ l ∈ ls, dedupKey l = l ∧ l ≠ "") (h2 : ls.Nodup) : dedupSpec ls = ls := by
  induction ls using dedupSpec.induct with
  | case1 => simp [dedupSpec]
  | case2 l rest hkey ih =>
    obtain ⟨hk, hne⟩ := h1 l (List.mem_cons_self l rest)
    rw [hk] at hkey
    exact absurd hkey hne
  | case3 l rest hkey ih =>
    have hkl : dedupKey l = l := (h1 l (List.mem_cons_self l rest)).1
    have hfilter : rest.filter (fun x => !(dedupKey x == dedupKey l)) = rest := by
      apply List.filter_eq_self.mpr
      intro x hx
      have hkx : dedupKey x = x := (h1 x (List.mem_cons_of_mem l hx)).1
      simp only [hkx, hkl, Bool.not_eq_true']
      rw [beq_eq_false_iff_ne]
      intro habs
      exact (List.nodup_cons.mp h2).1 (habs ▸ hx)
    rw [hfilter] at ih
    simp only [dedupSpec]
    rw [if_neg hkey, hfilter]
    rw [ih (fun x hx => h1 x (List.mem_cons_of_mem l hx)) (List.nodup_cons.mp h2).2]

theorem line600_clean (i : Nat) (hi : i < 600) :
    dedupKey (line600 i) = line600 i ∧ line600 i ≠ "" := by
  have hlow : ∀ d, d < 10 → Char.toLower (Nat.digitChar d) = Nat.digitChar d := by decide
  have hws : ∀ d, d < 10 → isWS (Nat.digitChar d) = false := by decide
  have d1 : i / 100 < 10 := by omega
  have d2 : i / 10 % 10 < 10 := by omega
  have d3 : i % 10 < 10 := by omega
  constructor
  · have htrim : ∀ (a b c : Char), isWS a = false → isWS c = false →
        trimL [a, b, c] = [a, b, c] := by
      intro a b c ha hc
      unfold trimL
      rw [List.dropWhile_cons, if_neg (by simp [ha])]
      simp only [List.reverse_cons, List.reverse_nil, List.nil_append,
        List.singleton_append, List.cons_append]
      rw [List.dropWhile_cons, if_neg (by simp [hc])]
      simp
    unfold dedupKey line600 jsToLower jsTrim
    simp only [List.map_cons, List.map_nil, hlow _ d1, hlow _ d2, hlow _ d3]
    rw [htrim _ _ _ (hws _ d1) (hws _ d3)]
  · intro habs
    have hd := congrArg String.data habs
    unfold line600 at hd
    simp at hd

theorem bigLines_nodup : bigLines.Nodup := by
  unfold bigLines
  refine List.Nodup.map_on ?_ (List.nodup_range 600)
  intro x hx y hy hxy
  rw [List.mem_range] at hx hy
  have hinj : ∀ a, a < 10 → ∀ b, b < 10 → Nat.digitChar a = Nat.digitChar b → a = b := by
    decide
  have hdata := congrArg String.data hxy
  unfold line600 at hdata
  simp only [List.cons.injEq, and_true] at hdata
  obtain ⟨h1, h2, h3⟩ := hdata
  have e1 := hinj _ (by omega) _ (by omega) h1
  have e2 := hinj _ (by omega) _ (by omega) h2
  have e3 := hinj _ (by omega) _ (by omega) h3
  omega

/-- Witness for C3: 600 distinct non-empty lines dedupe to 600 and cap at
500 with the capped flag set. -/
theorem chorus_C3_witness :
    (mergeInputs bigLines []).stats.totalBeforeCap = 600 ∧
      (mergeInputs bigLines []).merged.length = 500 ∧
      (mergeInputs bigLines []).stats.capped = true := by
  have h600 : (mergeInputs bigLines []).stats.totalBeforeCap = 600 := by
    rw [(chorus_C3.1 bigLines []).2.1, List.append_nil]
    rw [dedupSpec_of_clean bigLines ?_ bigLines_nodup]
    · unfold bigLines
      rw [List.length_map, List.length_range]
    · intro l hl
      obtain ⟨i, hi, rfl⟩ := List.mem_map.mp hl
      exact line600_clean i (List.mem_range.mp hi)
  exact ⟨h600, (chorus_C3.2 bigLines [] h600).1, (chorus_C3.2 bigLines [] h600).2⟩

/-! ### C10: the labeled-CSV export -/

theorem lookupKey_append (m1 m2 : List (String × String)) (key : String) :
    lookupKey (m1 ++ m2) key = (lookupKey m1 key).or (lookupKey m2 key) := by
  unfold lookupKey
  rw [List.find?_append]
  cases List.find? (fun p => p.1 == key) m1 with
  | none => simp
  | some p => simp

theorem lookupKey_addQuoteKeys (title : String) (qs : List String)
    (m : List (String × String)) (key : String) :
    lookupKey (addQuoteKeys title qs m) key =
      (lookupKey m key).or
        (if qs.any (fun q => dedupKey q == key) then some title else none) := by
  induction qs generalizing m with
  | nil => simp [addQuoteKeys]
  | cons q rest ih =>
    simp only [addQuoteKeys, List.any_cons]
    by_cases hc : (m.any (fun p => p.1 == dedupKey q)) = true
    · rw [if_pos hc, ih]
      by_cases hqk : (dedupKey q == key) = true
      · have hqk' : dedupKey q = key := by simpa using hqk
        obtain ⟨p, hp, hpk⟩ := List.any_eq_true.mp hc
        obtain ⟨p', hp'⟩ : ∃ p', List.find? (fun p => p.1 == key) m = some p' := by
          cases hf : List.find? (fun p => p.1 == key) m with
          | none =>
            have hnone := List.find?_eq_none.mp hf p hp
            rw [← hqk'] at hnone
            exact absurd hpk hnone
          | some p' => exact ⟨p', rfl⟩
        have hlk : lookupKey m key = some p'.2 := by
          unfold lookupKey
          rw [hp']
          rfl
        rw [hlk]
        simp [Option.or]
      · have hqk' : (dedupKey q == key) = false := by
          cases hx : (dedupKey q == key) with
          | false => rfl
          | true => exact absurd hx hqk
        simp only [hqk', Bool.false_or]
    · rw [if_neg hc, ih, lookupKey_append]
      have hsingle : lookupKey [(dedupKey q, title)] key =
          if (dedupKey q == key) = true then some title else none := by
        by_cases hx : (dedupKey q == key) = true
        · rw [if_pos hx]
          unfold lookupKey
          simp [List.find?_cons, hx]
        · have hx' : (dedupKey q == key) = false := by
            cases hy : (dedupKey q == key) with
            | false => rfl
            | true => exact absurd hy hx
          rw [if_neg hx]
          unfold lookupKey
          simp [List.find?_cons, hx']
      rw [hsingle, Option.or_assoc]
      congr 1
      by_cases hx : (dedupKey q == key) = true
      · simp [hx, Option.or]
      · have hx' : (dedupKey q == key) = false := by
          cases hy : (dedupKey q == key) with
          | false => rfl
          | true => exact absurd hy hx
        simp [hx']

theorem lookupKey_buildThemeMap (themes : List Theme) (m : List (String × String))
    (key : String) :
    lookupKey (buildThemeMap themes m) key =
      (lookupKey m key).or (firstThemeTitle themes key) := by
  induction themes generalizing m with
  | nil => simp [buildThemeMap, firstThemeTitle]
  | cons th rest ih =>
    simp only [buildThemeMap]
    rw [ih, lookupKey_addQuoteKeys, Option.or_assoc]
    congr 1
    unfold firstThemeTitle
    by_cases hth : (th.quotes.any (fun q => dedupKey q == key)) = true
    · simp [List.find?_cons, hth, Option.or]
    · have hth' : (th.quotes.any (fun q => dedupKey q == key)) = false := by
        cases hx : (th.quotes.any (fun q => dedupKey q == key)) with
        | false => rfl
        | true => exact absurd hx hth
      simp [List.find?_cons, hth']

/-- C10: each feedback line yields at most one export row; a quote key
appearing in several themes is labeled with the earliest theme's title; rows
follow feedback-line order after the fixed header row; and the export is the
deterministic join of those rows. -/
theorem chorus_C10 (feedbackLines : List String) (themes : List Theme) :
    createLabeledCSVLines feedbackLines themes =
      "original_text,theme_title" ::
        feedbackLines.filterMap (fun line =>
          (firstThemeTitle themes (dedupKey line)).map (fun title =>
            escapeCSVField line ++ "," ++ escapeCSVField title)) ∧
    (createLabeledCSVLines feedbackLines themes).length ≤ feedbackLines.length + 1 ∧
    createLabeledCSV feedbackLines themes =
      String.intercalate "\n" (createLabeledCSVLines feedbackLines themes) := by
  have hmap : ∀ line : String,
      lookupKey (buildThemeMap themes []) (dedupKey line) =
        firstThemeTitle themes (dedupKey line) := by
    intro line
    rw [lookupKey_buildThemeMap]
    simp [lookupKey]
  have hshape : createLabeledCSVLines feedbackLines themes =
      "original_text,theme_title" ::
        feedbackLines.filterMap (fun line =>
          (firstThemeTitle themes (dedupKey line)).map (fun title =>
            escapeCSVField line ++ "," ++ escapeCSVField title)) := by
    show "original_text,theme_title" ::
        feedbackLines.filterMap (fun line =>
          (lookupKey (buildThemeMap themes []) (dedupKey line)).map (fun title =>
            escapeCSVField line ++ "," ++ escapeCSVField title)) = _
    exact congrArg _ (List.filterMap_congr fun line _ => by rw [hmap line])
  refine ⟨hshape, ?_, rfl⟩
  rw [hshape]
  simp only [List.length_cons]
  have := List.length_filterMap_le
    (fun line => (firstThemeTitle themes (dedupKey line)).map (fun title =>
      escapeCSVField line ++ "," ++ escapeCSVField title)) feedbackLines
  omega

end Chorus
